import Mathlib

/-!
# mayday: the entry point `mayday.go`

A shallow embedding of `src/mayday.go`: the configuration-path choice of `openConfig`,
`readConfig`, and the construction of the ordered list of archivable units in `main`,
followed by the hand-over to the orchestrator.

Go strings are modelled as Lean `String`s.  The separator used by the program, `"="`,
is a single ASCII byte, so splitting on characters and splitting on bytes agree.
Everything the program obtains from its environment (environment variable, flags,
file system, JSON decoder, journal and pod discovery, clock) is a field of `World`.
-/

set_option autoImplicit false

namespace Mayday

/-! ## Go library functions used by `openConfig` -/

/-- Go `strings.Index(s, sep)`: position of the first occurrence of `sep` in `s`;
`none` stands for the result `-1`. -/
def stringsIndex (sep : List Char) : List Char → Option Nat
  | [] => if sep = [] then some 0 else none
  | c :: cs =>
    if sep.isPrefixOf (c :: cs) = true then some 0
    else (stringsIndex sep cs).map (· + 1)

/-- Loop of Go `strings.Count(s, sep)` for a non-empty `sep`: the number of
non-overlapping occurrences.  The first argument bounds the number of iterations. -/
def stringsCountLoop (sep : List Char) : Nat → List Char → Nat
  | 0, _ => 0
  | fuel + 1, s =>
    match stringsIndex sep s with
    | none => 0
    | some i => 1 + stringsCountLoop sep fuel (s.drop (i + sep.length))

/-- Go `strings.Count(s, sep)`.  Every iteration of the loop consumes at least one
character of `s`, so `s.length + 1` iterations are enough. -/
def stringsCount (s sep : List Char) : Nat :=
  if sep = [] then s.length + 1 else stringsCountLoop sep (s.length + 1) s

/-- Loop of Go `genSplit`: `for i < n` with `n` already decremented; the first
argument is the number of iterations still allowed, `n - i`. -/
def genSplitLoop (sep : List Char) : Nat → List Char → List (List Char)
  | 0, s => [s]
  | k + 1, s =>
    match stringsIndex sep s with
    | none => [s]
    | some m => s.take m :: genSplitLoop sep k (s.drop (m + sep.length))

/-- Go `strings.Split(s, sep)`, that is `genSplit(s, sep, 0, -1)`: with an empty
separator the string is exploded into its characters, otherwise it is cut at every
occurrence of `sep`, `n = Count(s, sep) + 1` pieces. -/
def stringsSplit (s sep : List Char) : List (List Char) :=
  if sep = [] then s.map (fun c => [c])
  else genSplitLoop sep (stringsCount s sep) s

/-! ## Data model of `mayday.go` -/

/-- Go `type File struct { Name string; Link string }`. -/
structure File where
  Name : String
  Link : String
  deriving DecidableEq, Repr

/-- Go `type Command struct { Args []string; Link string }`. -/
structure Command where
  Args : List String
  Link : String
  deriving DecidableEq, Repr

/-- Go `type Config struct { Files []File; Commands []Command }`. -/
structure Config where
  Files : List File
  Commands : List Command
  deriving DecidableEq, Repr

/-- Modelled from the spec: the package `v1alpha` is not under src/.  The spec gives the
pod state as an enumeration `{RUNNING, EXITED, ...}`; the states it does not name are
`OTHER n`.  `RUNNING` is `v1alpha.PodState_POD_STATE_RUNNING`. -/
inductive PodState where
  | RUNNING
  | EXITED
  | OTHER (code : Nat)
  deriving DecidableEq, Repr

/-- Modelled from the spec: the pod record of package `rkt` (not under src/),
`{ id: string, state: enum }`; `main` reads `p.Id` and `p.State`. -/
structure Pod where
  Id : String
  State : PodState
  deriving DecidableEq, Repr

/-- Modelled from the spec: a journal record of package `mayday` (not under src/), opaque
to `main`, which only appends it to the unit list. -/
structure Journal where
  ref : Nat
  deriving DecidableEq, Repr

/-- An open file, the result of a successful `os.Open`. -/
structure Handle where
  fd : Nat
  deriving DecidableEq, Repr

/-- The result of a successful `os.Stat` (Go `os.FileInfo`). -/
structure FileInfo where
  name : String
  size : Nat
  mode : Nat
  modTime : Nat
  deriving DecidableEq, Repr

/-- Go `tar.Header`, the fields a `FileInfo` determines. -/
structure Header where
  Name : String
  Linkname : String
  Size : Nat
  Mode : Nat
  ModTime : Nat
  deriving DecidableEq, Repr

/-- Modelled from the spec: the interface `mayday.Tarable` and the constructors
`mayday.NewCommand` and `mayday.NewFile` are not under src/.  A unit is the record of the
arguments `main` passes to its constructor: `command args link` is
`mayday.NewCommand(args, link)`, `file content header name link` is
`mayday.NewFile(content, header, name, link)`; a journal or a pod record is appended as
it is. -/
inductive Tarable where
  | command (args : List String) (link : String)
  | file (content : Handle) (header : Header) (name : String) (link : String)
  | journal (j : Journal)
  | pod (p : Pod)
  deriving DecidableEq, Repr

/-- The call `mayday.NewCommand(args, link)`. -/
def NewCommand (args : List String) (link : String) : Tarable :=
  Tarable.command args link

/-- The call `mayday.NewFile(content, header, name, link)`. -/
def NewFile (content : Handle) (header : Header) (name link : String) : Tarable :=
  Tarable.file content header name link

/-- How the process ends: `done` is the `return` of `main`, `fatal` is `log.Fatal`
(exit status 1), `panicked` is a Go run-time panic. -/
inductive Exit where
  | done
  | fatal (err : String)
  | panicked (err : String)
  deriving DecidableEq, Repr

/-- What `main` does that can be observed from outside, in program order.  A line written
with `log.Printf` or `log.Println` is recorded as its format string and its arguments. -/
inductive Event where
  | log (format : String) (args : List String)
  | create (path : String)
  | tarInit
  | run (tarables : List Tarable)
  | tarClose
  deriving DecidableEq, Repr

/-- Modelled from the spec: `rkt.GetPods` is not under src/.  The state of the container
runtime as pod discovery finds it: reachable with an ordered sequence of pod records, or
unreachable with a connection error. -/
inductive Runtime where
  | reachable (pods : List Pod)
  | unreachable (err : String)
  deriving DecidableEq, Repr

/-- Modelled from the spec: `rkt.GetPods` is not under src/.  It returns the ordered
sequence of pod records; on a connection failure it returns the error and no pods
("the dump proceeds with zero pods"). -/
def GetPods : Runtime → List Pod × Option String
  | Runtime.reachable pods => (pods, none)
  | Runtime.unreachable err => ([], some err)

/-- The file-system and archive-header operations `main` calls for each file spec. -/
structure Host where
  /-- Models `os.Open(name)`. -/
  osOpen : String → Except String Handle
  /-- Models `os.Stat(name)`. -/
  osStat : String → Except String FileInfo
  /-- Models `tar.FileInfoHeader(fi, link)`; on an error Go returns a nil header. -/
  fileInfoHeader : FileInfo → String → Except String Header

/-- Everything `main` reads from outside the program. -/
structure World where
  /-- The value `os.Getenv("MAYDAY_CONFIG_FILE")`, empty when the variable is unset. -/
  configVar : String
  /-- The `-config-file` flag, when given on the command line. -/
  configFileFlag : Option String
  /-- The `-danger` flag, when given on the command line. -/
  dangerFlag : Option Bool
  /-- Models `ioutil.ReadFile`. -/
  readFile : String → Except String String
  /-- Models `json.Unmarshal` into a `Config`. -/
  unmarshal : String → Except String Config
  /-- Models `mayday.ListJournals()`. -/
  listJournals : Except String (List Journal)
  /-- The pair `pods, err` returned by the call `rkt.GetPods()`. -/
  getPods : List Pod × Option String
  host : Host
  /-- Models `os.TempDir()`. -/
  tempDir : String
  /-- Models `time.Now().Format("200601021504.999999999")`. -/
  now : String
  /-- Models `os.Create`. -/
  osCreate : String → Except String Handle
  /-- Models `mayday.Run(t, tarables)`: `some err` when the orchestrator terminates the
  process itself, `none` when it returns. -/
  orchestrate : List Tarable → Option String

/-- Go `const dirPrefix = "/mayday"`. -/
def dirPrefix : String := "/mayday"

/-! ## `openConfig` and `readConfig` -/

/-- The value of `configFile` at the call of `ioutil.ReadFile` in `openConfig`:
`strings.Split(configVar, "=")[0]`, replaced by the flag when it is empty. -/
def configFilePath (configVar flagConfigFile : String) : String :=
  let configFile := String.mk ((stringsSplit configVar.data "=".data).headD [])
  if configFile = "" then flagConfigFile else configFile

/-- Go `openConfig`: the log line and the result of reading the chosen path. -/
def openConfig (w : World) (flagConfigFile : String) : List Event × Except String String :=
  let configFile := configFilePath w.configVar flagConfigFile
  ([Event.log "Reading configuration from %v\n" [configFile]], w.readFile configFile)

/-- Go `readConfig`: a decoding error is fatal, otherwise the two lists are returned. -/
def readConfig (w : World) (dat : String) : Except Exit (List File × List Command) :=
  match w.unmarshal dat with
  | Except.error err => Except.error (Exit.fatal err)
  | Except.ok c => Except.ok (c.Files, c.Commands)

/-! ## `main`: building the unit list -/

/-- The unit `main` appends for a running pod in danger mode (lines 100-101). -/
def podLogUnit (p : Pod) : Tarable :=
  let logcmd := ["journalctl", "-M", "rkt-" ++ p.Id]
  NewCommand logcmd ("/rkt/" ++ p.Id ++ ".log")

/-- Lines 95-105 of `main`, without the log line: the danger-mode loop over the pods. -/
def addPodLogs (danger : Bool) (pods : List Pod) (tarables : List Tarable) : List Tarable :=
  if danger then
    if pods.length ≠ 0 then
      pods.foldl
        (fun acc p => if p.State = PodState.RUNNING then acc ++ [podLogUnit p] else acc)
        tarables
    else tarables
  else tarables

/-- The body of the loop over the file specs (lines 108-125): the unit that is appended,
or how the process ends.  A failing `os.Open` or `os.Stat` is `log.Fatal`; when
`tar.FileInfoHeader` fails its header is nil and the assignment `header.Name = f.Name`,
which precedes the error check, panics. -/
def newFileUnit (h : Host) (f : File) : Except Exit Tarable :=
  match h.osOpen f.Name with
  | Except.error err => Except.error (Exit.fatal err)
  | Except.ok content =>
    match h.osStat f.Name with
    | Except.error err => Except.error (Exit.fatal err)
    | Except.ok fi =>
      match h.fileInfoHeader fi f.Name with
      | Except.error _ =>
        Except.error (Exit.panicked "invalid memory address or nil pointer dereference")
      | Except.ok header =>
        let header := { header with Name := f.Name }
        Except.ok (NewFile content header f.Name f.Link)

/-- Lines 107-126 of `main`: the loop over the file specs, which stops the process at
the first spec that cannot be turned into a unit. -/
def addFiles (h : Host) : List File → List Tarable → Except Exit (List Tarable)
  | [], tarables => Except.ok tarables
  | f :: fs, tarables =>
    match newFileUnit h f with
    | Except.error e => Except.error e
    | Except.ok u => addFiles h fs (tarables ++ [u])

/-- Lines 128-130 of `main`: the loop over the command specs. -/
def addCommands (commands : List Command) (tarables : List Tarable) : List Tarable :=
  commands.foldl (fun acc c => acc ++ [NewCommand c.Args c.Link]) tarables

/-- Lines 132-134 of `main`: the loop over the journals. -/
def addJournals (journals : List Journal) (tarables : List Tarable) : List Tarable :=
  journals.foldl (fun acc j => acc ++ [Tarable.journal j]) tarables

/-- Lines 136-138 of `main`: the loop over the pods. -/
def addPods (pods : List Pod) (tarables : List Tarable) : List Tarable :=
  pods.foldl (fun acc p => acc ++ [Tarable.pod p]) tarables

/-- Lines 72 and 95-138 of `main`: the value of `tarables` after the five loops, or how
the process ended inside the loop over the file specs. -/
def buildTarables (danger : Bool) (pods : List Pod) (files : List File)
    (commands : List Command) (journals : List Journal) (h : Host) :
    Except Exit (List Tarable) :=
  match addFiles h files (addPodLogs danger pods []) with
  | Except.error e => Except.error e
  | Except.ok tarables => Except.ok (addPods pods (addJournals journals (addCommands commands tarables)))

/-- The path `outputFile` of `main` (lines 140-144). -/
def outputFile (w : World) : String :=
  let ws := w.tempDir ++ dirPrefix ++ w.now
  ws ++ ".tar.gz"

/-- The warning lines of `main` after `rkt.GetPods()` (lines 90-93). -/
def podWarning : Option String → List Event
  | none => []
  | some err =>
    [Event.log "Could not connect to rkt. Verify mayday has permissions to launch the rkt client." [],
     Event.log "Connection error: %s" [err]]

/-- The log line of `main` when danger mode is on (line 96). -/
def dangerNotice (danger : Bool) : List Event :=
  if danger then
    [Event.log "Danger mode activated. Dump will include rkt pod logs, which may contain sensitive information." []]
  else []

/-- Go `main`: the observable events in program order and how the process ends.  The
deferred `Close` calls are not events. -/
def main (w : World) : List Event × Exit :=
  let flagConfigFile := w.configFileFlag.getD "/etc/mayday.conf"
  let danger := w.dangerFlag.getD false
  match openConfig w flagConfigFile with
  | (tr1, Except.error err) => (tr1, Exit.fatal err)
  | (tr1, Except.ok conf) =>
    match readConfig w conf with
    | Except.error e => (tr1, e)
    | Except.ok (files, commands) =>
      match w.listJournals with
      | Except.error err => (tr1, Exit.fatal err)
      | Except.ok journals =>
        match w.getPods with
        | (pods, err) =>
          let tr2 := tr1 ++ podWarning err ++ dangerNotice danger
          match buildTarables danger pods files commands journals w.host with
          | Except.error e => (tr2, e)
          | Except.ok tarables =>
            match w.osCreate (outputFile w) with
            | Except.error err => (tr2, Exit.panicked err)
            | Except.ok _ =>
              let tr3 := tr2 ++ [Event.create (outputFile w), Event.tarInit, Event.run tarables]
              match w.orchestrate tarables with
              | some err => (tr3, Exit.fatal err)
              | none =>
                (tr3 ++ [Event.tarClose,
                  Event.log "Output saved in %v\n" [outputFile w],
                  Event.log "All done!" []], Exit.done)

/-! ## Observations on a run and on a unit -/

/-- The unit list handed to the orchestrator in a run, if `mayday.Run` was reached. -/
def handedUnits : List Event → Option (List Tarable)
  | [] => none
  | Event.run ts :: _ => some ts
  | _ :: es => handedUnits es

/-- Whether the event creates the output archive file. -/
def Event.isCreate : Event → Bool
  | Event.create _ => true
  | _ => false

/-- Whether the event is the call of the orchestrator. -/
def Event.isRun : Event → Bool
  | Event.run _ => true
  | _ => false

/-- Whether the event is the log line that reports the output path. -/
def Event.isReport : Event → Bool
  | Event.log format _ => format = "Output saved in %v\n"
  | _ => false

/-- The archive name a unit built by `main` is given: the second argument of
`NewCommand`, the name argument of `NewFile`.  Journals and pod records are not built by
`main` and name themselves in code that is not under src/. -/
def archiveName : Tarable → Option String
  | Tarable.command _ link => some link
  | Tarable.file _ _ name _ => some name
  | Tarable.journal _ => none
  | Tarable.pod _ => none

/-- The link argument a file unit is built with. -/
def linkTarget : Tarable → Option String
  | Tarable.file _ _ _ link => some link
  | _ => none

/-- The two kinds of archive entry. -/
inductive EntryKind where
  | symlink
  | content
  deriving DecidableEq, Repr

/-- Modelled from the spec: the orchestrator `mayday.Run` is not under src/.  "If
`linkTarget` is non-empty, the unit is written as a symbolic-link entry and `content` is
not read"; otherwise the unit is a content entry. -/
def entryKind (link : String) : EntryKind :=
  if link ≠ "" then EntryKind.symlink else EntryKind.content

/-- Spec wording of the path choice: the part of the environment value before its first
`=` character, all of it when it contains none. -/
def beforeFirstEq (e : String) : String :=
  String.mk (e.data.takeWhile (fun c => c != '='))

/-- Spec wording of the danger-mode segment: one pod-log unit for each pod whose state is
RUNNING, in pod order, when danger mode is on; nothing when it is off. -/
def podLogSegment (danger : Bool) (pods : List Pod) : List Tarable :=
  if danger then
    (pods.filter (fun p => decide (p.State = PodState.RUNNING))).map podLogUnit
  else []

/-- The start-up of `main` (lines 67-87) succeeds: the configuration is read and decoded
into these file and command specs, and journal discovery returns these journals. -/
def Starts (w : World) (files : List File) (commands : List Command)
    (journals : List Journal) : Prop :=
  ∃ conf cfg,
    w.readFile (configFilePath w.configVar (w.configFileFlag.getD "/etc/mayday.conf"))
        = Except.ok conf ∧
      w.unmarshal conf = Except.ok cfg ∧ cfg.Files = files ∧ cfg.Commands = commands ∧
      w.listJournals = Except.ok journals

/-- The log lines of a run that got past start-up, up to the loops (lines 50, 91-92, 96). -/
def startTrace (w : World) : List Event :=
  [Event.log "Reading configuration from %v\n"
      [configFilePath w.configVar (w.configFileFlag.getD "/etc/mayday.conf")]]
    ++ podWarning w.getPods.2 ++ dangerNotice (w.dangerFlag.getD false)

/-- Spec wording of the unit order: the danger-mode pod-log units, then the file units,
the command units, the journal units and the raw pod records, each segment in the order
of its source list. -/
def orderedUnits (danger : Bool) (pods : List Pod) (fileUnits : List Tarable)
    (commands : List Command) (journals : List Journal) : List Tarable :=
  podLogSegment danger pods ++ fileUnits
    ++ commands.map (fun c => NewCommand c.Args c.Link)
    ++ journals.map Tarable.journal ++ pods.map Tarable.pod

/-- The kind of archive entry a file unit is marked as, by its link argument. -/
def unitKind (t : Tarable) : Option EntryKind :=
  (linkTarget t).map entryKind

/-! ## Sample inputs -/

/-- A host on which `/etc/hostname` is the only path that opens, every path but
`/etc/shadow` can be stat'd, and every header can be built. -/
def sampleHost : Host where
  osOpen := fun name =>
    if name = "/etc/hostname" then Except.ok ⟨3⟩
    else Except.error "open: no such file or directory"
  osStat := fun name =>
    if name = "/etc/shadow" then Except.error "stat: permission denied"
    else Except.ok ⟨"hostname", 7, 420, 0⟩
  fileInfoHeader := fun fi _ => Except.ok ⟨fi.name, "", fi.size, fi.mode, fi.modTime⟩

/-- The configuration of the end-to-end scenario of the spec. -/
def sampleConfig : Config where
  Files := [⟨"/etc/hostname", ""⟩]
  Commands := [⟨["echo", "hi"], ""⟩]

/-- A run with the sample configuration, one journal, a running and an exited pod, in
danger mode. -/
def sampleWorld : World where
  configVar := ""
  configFileFlag := none
  dangerFlag := some true
  readFile := fun _ => Except.ok "conf"
  unmarshal := fun _ => Except.ok sampleConfig
  listJournals := Except.ok [⟨0⟩]
  getPods := ([⟨"p1", PodState.RUNNING⟩, ⟨"p2", PodState.EXITED⟩], none)
  host := sampleHost
  tempDir := "/tmp"
  now := "201601011200"
  osCreate := fun _ => Except.ok ⟨4⟩
  orchestrate := fun _ => none

/-- The sample run with a second file spec whose path does not open. -/
def brokenWorld : World :=
  { sampleWorld with
    unmarshal := fun _ =>
      Except.ok ⟨[⟨"/etc/hostname", ""⟩, ⟨"/var/missing", ""⟩], [⟨["echo", "hi"], ""⟩]⟩ }

/-- The sample run when pod discovery cannot connect to the container runtime. -/
def offlineWorld : World :=
  { sampleWorld with getPods := GetPods (Runtime.unreachable "connection refused") }

/-- The file unit built for `/etc/hostname` on the sample host. -/
def sampleFileUnit : Tarable :=
  Tarable.file ⟨3⟩ ⟨"/etc/hostname", "", 7, 420, 0⟩ "/etc/hostname" ""

/-! ## The first piece of a split at `=` -/

theorem stringsIndex_eq_cons (c : Char) (cs : List Char) :
    stringsIndex ['='] (c :: cs) =
      if c = '=' then some 0 else (stringsIndex ['='] cs).map (· + 1) := by
  by_cases h : c = '='
  · subst h; simp [stringsIndex, List.isPrefixOf]
  · have h2 : ¬ ('=' = c) := fun e => h e.symm
    simp [stringsIndex, List.isPrefixOf, h, h2]

theorem take_stringsIndex_eq (s : List Char) :
    (match stringsIndex ['='] s with
      | none => s
      | some m => s.take m) = s.takeWhile (fun c => c != '=') := by
  induction s with
  | nil => simp [stringsIndex]
  | cons c cs ih =>
    rw [stringsIndex_eq_cons]
    by_cases h : c = '='
    · subst h; simp
    · simp only [h, if_false]
      have hc : (c != '=') = true := by simp [h]
      rw [List.takeWhile_cons, hc, if_pos rfl, ← ih]
      cases hi : stringsIndex ['='] cs <;> simp

theorem stringsSplit_eq_head (s : List Char) :
    (stringsSplit s ['=']).headD [] = s.takeWhile (fun c => c != '=') := by
  rw [← take_stringsIndex_eq]
  cases hi : stringsIndex ['='] s with
  | none =>
    cases hn : stringsCount s ['='] with
    | zero => simp [stringsSplit, hn, genSplitLoop]
    | succ k => simp [stringsSplit, hn, genSplitLoop, hi]
  | some m =>
    simp [stringsSplit, stringsCount, stringsCountLoop, hi, genSplitLoop, Nat.add_comm 1]

/-- The index `[0]` in `openConfig` is always in range. -/
theorem stringsSplit_ne_nil (s : List Char) : stringsSplit s ['='] ≠ [] := by
  cases hn : stringsCount s ['='] with
  | zero => simp [stringsSplit, hn, genSplitLoop]
  | succ k =>
    cases hi : stringsIndex ['='] s <;> simp [stringsSplit, hn, genSplitLoop, hi]

theorem stringsIndex_some_count (s : List Char) (i : Nat)
    (h : stringsIndex ['='] s = some i) :
    s.count '=' = 1 + (s.drop (i + 1)).count '=' ∧ (s.drop (i + 1)).length < s.length := by
  induction s generalizing i with
  | nil => simp [stringsIndex] at h
  | cons c cs ih =>
    rw [stringsIndex_eq_cons] at h
    by_cases hc : c = '='
    · subst hc
      simp only [if_true, Option.some.injEq] at h
      subst h
      simp [Nat.add_comm]
    · simp only [hc, if_false, Option.map_eq_some'] at h
      obtain ⟨j, hj, rfl⟩ := h
      obtain ⟨h1, h2⟩ := ih j hj
      have hc2 : ¬ (c == '=') = true := by simp [hc]
      simp only [List.drop_succ_cons, List.length_cons]
      rw [List.count_cons, h1]
      simp [hc]
      omega

theorem stringsIndex_none_count (s : List Char) (h : stringsIndex ['='] s = none) :
    s.count '=' = 0 := by
  induction s with
  | nil => rfl
  | cons c cs ih =>
    rw [stringsIndex_eq_cons] at h
    by_cases hc : c = '='
    · simp [hc] at h
    · simp only [hc, if_false, Option.map_eq_none'] at h
      rw [List.count_cons, ih h]
      simp [hc]

/-- The iteration bound in `stringsCount` is never reached: the count is the number of
`=` characters. -/
theorem stringsCount_eq (s : List Char) : stringsCount s ['='] = s.count '=' := by
  have key : ∀ (fuel : Nat) (t : List Char), t.length < fuel →
      stringsCountLoop ['='] fuel t = t.count '=' := by
    intro fuel
    induction fuel with
    | zero => intro t ht; omega
    | succ k ih =>
      intro t ht
      cases hi : stringsIndex ['='] t with
      | none => simp [stringsCountLoop, hi, stringsIndex_none_count t hi]
      | some i =>
        obtain ⟨h1, h2⟩ := stringsIndex_some_count t i hi
        simp only [stringsCountLoop, hi, List.length_singleton]
        rw [ih _ (by omega), h1]
  simp [stringsCount, key (s.length + 1) s (by omega)]


theorem stringsIndex_some_split (s : List Char) (i : Nat)
    (h : stringsIndex ['='] s = some i) : s = s.take i ++ '=' :: s.drop (i + 1) := by
  induction s generalizing i with
  | nil => simp [stringsIndex] at h
  | cons c cs ih =>
    rw [stringsIndex_eq_cons] at h
    by_cases hc : c = '='
    · subst hc
      simp only [if_true, Option.some.injEq] at h
      subst h
      simp
    · simp only [hc, if_false, Option.map_eq_some'] at h
      obtain ⟨j, hj, rfl⟩ := h
      simp only [List.take_succ_cons, List.drop_succ_cons, List.cons_append]
      rw [← ih j hj]

theorem genSplitLoop_ne_nil (k : Nat) (t : List Char) : genSplitLoop ['='] k t ≠ [] := by
  cases k with
  | zero => simp [genSplitLoop]
  | succ k => cases hi : stringsIndex ['='] t <;> simp [genSplitLoop, hi]

/-- Joining the pieces of `strings.Split(s, "=")` with `=` gives `s` back, and there are
`Count(s, "=") + 1` pieces. -/
theorem stringsSplit_join (s : List Char) :
    ['='].intercalate (stringsSplit s ['=']) = s
      ∧ (stringsSplit s ['=']).length = s.count '=' + 1 := by
  have key : ∀ (k : Nat) (t : List Char), t.count '=' = k →
      ['='].intercalate (genSplitLoop ['='] k t) = t
        ∧ (genSplitLoop ['='] k t).length = k + 1 := by
    intro k
    induction k with
    | zero => intro t _; simp [genSplitLoop, List.intercalate]
    | succ k ih =>
      intro t ht
      cases hi : stringsIndex ['='] t with
      | none => rw [stringsIndex_none_count t hi] at ht; omega
      | some i =>
        obtain ⟨h1, _⟩ := stringsIndex_some_count t i hi
        have hk : (t.drop (i + 1)).count '=' = k := by omega
        obtain ⟨ih1, ih2⟩ := ih _ hk
        have hsplit := stringsIndex_some_split t i hi
        simp only [genSplitLoop, hi, List.length_cons, List.length_nil, Nat.zero_add, ih2,
          and_true]
        cases hg : genSplitLoop ['='] k (t.drop (i + 1)) with
        | nil => exact absurd hg (genSplitLoop_ne_nil _ _)
        | cons a as =>
          rw [hg] at ih1
          simp only [List.intercalate, List.intersperse_cons_cons, List.flatten_cons] at ih1 ⊢
          rw [ih1]
          simpa using hsplit.symm
  simpa [stringsSplit, stringsCount_eq] using key (s.count '=') s rfl

theorem configFilePath_eq (e f : String) :
    configFilePath e f = if beforeFirstEq e = "" then f else beforeFirstEq e := by
  have h : "=".data = ['='] := rfl
  simp only [configFilePath, beforeFirstEq, h, stringsSplit_eq_head]

theorem beforeFirstEq_of_not_mem (e : String) (h : '=' ∉ e.data) : beforeFirstEq e = e := by
  have h2 : e.data.takeWhile (fun c => c != '=') = e.data := by
    rw [List.takeWhile_eq_self_iff]
    intro c hc
    have : c ≠ '=' := fun hce => h (hce ▸ hc)
    simp [this]
  simp [beforeFirstEq, h2]

theorem beforeFirstEq_of_head (e : String) (r : List Char) (h : e.data = '=' :: r) :
    beforeFirstEq e = "" := by
  simp [beforeFirstEq, h]

theorem beforeFirstEq_split (e : String) :
    ∃ rest, e.data = (beforeFirstEq e).data ++ rest ∧ (rest = [] ∨ rest.head? = some '=') := by
  refine ⟨e.data.dropWhile (fun c => c != '='), ?_, ?_⟩
  · simp [beforeFirstEq, List.takeWhile_append_dropWhile]
  · cases hd : e.data.dropWhile (fun c => c != '=') with
    | nil => exact Or.inl rfl
    | cons c cs =>
      right
      have h := List.head_dropWhile_not (fun c => c != '=') e.data (by simp [hd])
      simp only [hd, List.head_cons] at h
      simpa using h

theorem beforeFirstEq_no_eq (e : String) : '=' ∉ (beforeFirstEq e).data := by
  intro h
  have h2 := List.mem_takeWhile_imp h
  simp at h2

/-! ## The path read by `openConfig` -/

/-- C10: for every value `e` of MAYDAY_CONFIG_FILE and every flag value `f`, `openConfig`
logs and reads the part of `e` before its first `=` (all of `e` when it has none) when
that part is non-empty, and `f` otherwise.  That part never contains `=`, and what
follows it in `e` is empty or starts with `=`; a value that starts with `=` falls back
to the flag. -/
theorem openConfig_reads_part_before_eq (w : World) (f : String) :
    configFilePath w.configVar f
        = (if beforeFirstEq w.configVar ≠ "" then beforeFirstEq w.configVar else f)
      ∧ openConfig w f
        = ([Event.log "Reading configuration from %v\n" [configFilePath w.configVar f]],
            w.readFile (configFilePath w.configVar f))
      ∧ '=' ∉ (beforeFirstEq w.configVar).data
      ∧ (∃ rest, w.configVar.data = (beforeFirstEq w.configVar).data ++ rest
          ∧ (rest = [] ∨ rest.head? = some '='))
      ∧ (∀ r : List Char, configFilePath (String.mk ('=' :: r)) f = f) := by
  refine ⟨?_, rfl, beforeFirstEq_no_eq _, beforeFirstEq_split _, ?_⟩
  · rw [configFilePath_eq]
    by_cases h : beforeFirstEq w.configVar = "" <;> simp [h]
  · intro r
    rw [configFilePath_eq, beforeFirstEq_of_head _ r rfl]
    simp

/-- C4, as stated, fails: the environment value `/tmp/mayday.json=1` is not empty, yet the
path read is `/tmp/mayday.json`, not the value; and the value `=x` is not empty, yet the
flag is used. -/
theorem env_value_not_read_whole :
    ("/tmp/mayday.json=1" : String) ≠ ""
      ∧ configFilePath "/tmp/mayday.json=1" "/etc/mayday.conf" = "/tmp/mayday.json"
      ∧ configFilePath "/tmp/mayday.json=1" "/etc/mayday.conf" ≠ "/tmp/mayday.json=1"
      ∧ ("=x" : String) ≠ ""
      ∧ configFilePath "=x" "/etc/mayday.conf" = "/etc/mayday.conf" := by
  decide

/-- C4, amended: the environment variable has precedence over the flag.  For every value
of MAYDAY_CONFIG_FILE that is not empty and contains no `=`, and every flag value, the
path read is the variable's value; for every value whose part before the first `=` is
not empty the path read is that part, whatever the flag; the flag value is read only
when that part is empty, as it is when the variable is empty or unset. -/
theorem env_precedes_flag (e f : String) (he : e ≠ "") (hne : '=' ∉ e.data) :
    configFilePath e f = e
      ∧ (∀ e2 : String, beforeFirstEq e2 ≠ "" → configFilePath e2 f = beforeFirstEq e2)
      ∧ (∀ e2 : String, configFilePath e2 f ≠ beforeFirstEq e2 →
          beforeFirstEq e2 = "" ∧ configFilePath e2 f = f)
      ∧ configFilePath "" f = f := by
  refine ⟨?_, ?_, ?_, ?_⟩
  · rw [configFilePath_eq, beforeFirstEq_of_not_mem e hne]
    simp [he]
  · intro e2 h
    rw [configFilePath_eq]
    simp [h]
  · intro e2 h
    rw [configFilePath_eq] at h ⊢
    by_cases hb : beforeFirstEq e2 = ""
    · simp [hb]
    · simp [hb] at h
  · rw [configFilePath_eq]
    have : beforeFirstEq "" = "" := by decide
    simp [this]

theorem env_precedes_flag_witness :
    ("/tmp/mayday.json" : String) ≠ "" ∧ '=' ∉ ("/tmp/mayday.json" : String).data
      ∧ configFilePath "/tmp/mayday.json" "/etc/mayday.conf" = "/tmp/mayday.json" :=
  ⟨by decide, by decide,
    (env_precedes_flag "/tmp/mayday.json" "/etc/mayday.conf" (by decide) (by decide)).1⟩

/-! ## The five loops of `main` -/

theorem foldl_running (pods : List Pod) (tarables : List Tarable) :
    pods.foldl
        (fun acc p => if p.State = PodState.RUNNING then acc ++ [podLogUnit p] else acc)
        tarables
      = tarables
          ++ (pods.filter (fun p => decide (p.State = PodState.RUNNING))).map podLogUnit := by
  induction pods generalizing tarables with
  | nil => simp
  | cons p ps ih =>
    rw [List.foldl_cons, ih]
    by_cases h : p.State = PodState.RUNNING <;> simp [h]

theorem addPodLogs_eq (danger : Bool) (pods : List Pod) (tarables : List Tarable) :
    addPodLogs danger pods tarables = tarables ++ podLogSegment danger pods := by
  cases danger with
  | false => simp [addPodLogs, podLogSegment]
  | true =>
    cases pods with
    | nil => simp [addPodLogs, podLogSegment]
    | cons p ps => simp only [addPodLogs, podLogSegment, foldl_running]; simp

theorem addCommands_eq (commands : List Command) (tarables : List Tarable) :
    addCommands commands tarables
      = tarables ++ commands.map (fun c => NewCommand c.Args c.Link) := by
  unfold addCommands
  induction commands generalizing tarables with
  | nil => simp
  | cons c cs ih => rw [List.foldl_cons, ih]; simp

theorem addJournals_eq (journals : List Journal) (tarables : List Tarable) :
    addJournals journals tarables = tarables ++ journals.map Tarable.journal := by
  unfold addJournals
  induction journals generalizing tarables with
  | nil => simp
  | cons j js ih => rw [List.foldl_cons, ih]; simp

theorem addPods_eq (pods : List Pod) (tarables : List Tarable) :
    addPods pods tarables = tarables ++ pods.map Tarable.pod := by
  unfold addPods
  induction pods generalizing tarables with
  | nil => simp
  | cons p ps ih => rw [List.foldl_cons, ih]; simp

theorem addFiles_ok (h : Host) (files : List File) (fileUnits tarables : List Tarable)
    (hf : List.Forall₂ (fun f u => newFileUnit h f = Except.ok u) files fileUnits) :
    addFiles h files tarables = Except.ok (tarables ++ fileUnits) := by
  induction hf generalizing tarables with
  | nil => simp [addFiles]
  | cons hfu _ ih => simp [addFiles, hfu, ih]

theorem addFiles_ok_inv (h : Host) (files : List File) (tarables out : List Tarable)
    (hf : addFiles h files tarables = Except.ok out) :
    ∃ fileUnits, List.Forall₂ (fun f u => newFileUnit h f = Except.ok u) files fileUnits
      ∧ out = tarables ++ fileUnits := by
  induction files generalizing tarables with
  | nil =>
    simp only [addFiles, Except.ok.injEq] at hf
    exact ⟨[], List.Forall₂.nil, by simp [hf]⟩
  | cons f fs ih =>
    cases hu : newFileUnit h f with
    | error e => simp [addFiles, hu] at hf
    | ok u =>
      simp only [addFiles, hu] at hf
      obtain ⟨us, hus, hout⟩ := ih _ hf
      exact ⟨u :: us, List.Forall₂.cons hu hus, by simp [hout]⟩

theorem addFiles_error_at (h : Host) (pre post : List File) (f : File)
    (preUnits tarables : List Tarable) (e : Exit)
    (hpre : List.Forall₂ (fun f u => newFileUnit h f = Except.ok u) pre preUnits)
    (hf : newFileUnit h f = Except.error e) :
    addFiles h (pre ++ f :: post) tarables = Except.error e := by
  induction hpre generalizing tarables with
  | nil => simp [addFiles, hf]
  | cons hfu _ ih => simp [addFiles, hfu, ih]

theorem addFiles_error_of_mem (h : Host) (files : List File) (f : File)
    (tarables : List Tarable) (hmem : f ∈ files)
    (hf : ∃ e, newFileUnit h f = Except.error e) :
    ∃ e, addFiles h files tarables = Except.error e := by
  induction files generalizing tarables with
  | nil => simp at hmem
  | cons g gs ih =>
    cases hu : newFileUnit h g with
    | error e => exact ⟨e, by simp [addFiles, hu]⟩
    | ok u =>
      rcases List.mem_cons.mp hmem with rfl | hin
      · obtain ⟨e, he⟩ := hf
        rw [hu] at he
        cases he
      · obtain ⟨e, he⟩ := ih (tarables ++ [u]) hin
        exact ⟨e, by simp [addFiles, hu, he]⟩

theorem buildTarables_ok (danger : Bool) (pods : List Pod) (files : List File)
    (commands : List Command) (journals : List Journal) (h : Host)
    (fileUnits : List Tarable)
    (hf : List.Forall₂ (fun f u => newFileUnit h f = Except.ok u) files fileUnits) :
    buildTarables danger pods files commands journals h
      = Except.ok (podLogSegment danger pods ++ fileUnits
          ++ commands.map (fun c => NewCommand c.Args c.Link)
          ++ journals.map Tarable.journal ++ pods.map Tarable.pod) := by
  simp [buildTarables, addFiles_ok h files fileUnits _ hf, addPodLogs_eq, addCommands_eq,
    addJournals_eq, addPods_eq]

theorem buildTarables_ok_inv (danger : Bool) (pods : List Pod) (files : List File)
    (commands : List Command) (journals : List Journal) (h : Host) (ts : List Tarable)
    (hb : buildTarables danger pods files commands journals h = Except.ok ts) :
    ∃ fileUnits, List.Forall₂ (fun f u => newFileUnit h f = Except.ok u) files fileUnits
      ∧ ts = podLogSegment danger pods ++ fileUnits
          ++ commands.map (fun c => NewCommand c.Args c.Link)
          ++ journals.map Tarable.journal ++ pods.map Tarable.pod := by
  cases ha : addFiles h files (addPodLogs danger pods []) with
  | error e => simp [buildTarables, ha] at hb
  | ok out =>
    obtain ⟨us, hus, hout⟩ := addFiles_ok_inv h files _ out ha
    refine ⟨us, hus, ?_⟩
    simp only [buildTarables, ha, Except.ok.injEq] at hb
    rw [← hb, hout, addPodLogs_eq, addCommands_eq, addJournals_eq, addPods_eq]
    simp

/-! ## `main` after a successful start-up -/

theorem main_abort (w : World) (files : List File) (commands : List Command)
    (journals : List Journal) (e : Exit) (hs : Starts w files commands journals)
    (hb : buildTarables (w.dangerFlag.getD false) w.getPods.1 files commands journals w.host
      = Except.error e) :
    main w = (startTrace w, e) := by
  obtain ⟨conf, cfg, hr, hu, rfl, rfl, hj⟩ := hs
  simp [main, openConfig, readConfig, hr, hu, hj, hb, startTrace]

theorem main_handed (w : World) (files : List File) (commands : List Command)
    (journals : List Journal) (ts : List Tarable) (out : Handle)
    (hs : Starts w files commands journals)
    (hb : buildTarables (w.dangerFlag.getD false) w.getPods.1 files commands journals w.host
      = Except.ok ts)
    (hc : w.osCreate (outputFile w) = Except.ok out) :
    handedUnits (main w).1 = some ts := by
  obtain ⟨conf, cfg, hr, hu, rfl, rfl, hj⟩ := hs
  have hw : ∀ rest : List Event,
      handedUnits (podWarning w.getPods.2 ++ (dangerNotice (w.dangerFlag.getD false)
        ++ (Event.create (outputFile w) :: Event.tarInit :: Event.run ts :: rest)))
        = some ts := by
    intro rest
    cases w.getPods.2 <;> cases w.dangerFlag.getD false <;>
      simp [podWarning, dangerNotice, handedUnits]
  cases ho : w.orchestrate ts <;>
    simp [main, openConfig, readConfig, hr, hu, hj, hb, hc, ho, handedUnits, hw]

theorem main_done (w : World) (files : List File) (commands : List Command)
    (journals : List Journal) (ts : List Tarable) (out : Handle)
    (hs : Starts w files commands journals)
    (hb : buildTarables (w.dangerFlag.getD false) w.getPods.1 files commands journals w.host
      = Except.ok ts)
    (hc : w.osCreate (outputFile w) = Except.ok out) (ho : w.orchestrate ts = none) :
    main w = (startTrace w ++ [Event.create (outputFile w), Event.tarInit, Event.run ts,
      Event.tarClose, Event.log "Output saved in %v\n" [outputFile w],
      Event.log "All done!" []], Exit.done) := by
  obtain ⟨conf, cfg, hr, hu, rfl, rfl, hj⟩ := hs
  simp [main, openConfig, readConfig, hr, hu, hj, hb, hc, ho, startTrace]

theorem newFileUnit_ok_inv (h : Host) (f : File) (u : Tarable)
    (hu : newFileUnit h f = Except.ok u) :
    ∃ content fi hd, h.osOpen f.Name = Except.ok content ∧ h.osStat f.Name = Except.ok fi
      ∧ h.fileInfoHeader fi f.Name = Except.ok hd
      ∧ u = Tarable.file content { hd with Name := f.Name } f.Name f.Link := by
  unfold newFileUnit at hu
  cases ho : h.osOpen f.Name with
  | error e => simp [ho] at hu
  | ok content =>
    cases hs : h.osStat f.Name with
    | error e => simp [ho, hs] at hu
    | ok fi =>
      cases hh : h.fileInfoHeader fi f.Name with
      | error e => simp [ho, hs, hh] at hu
      | ok hd =>
        simp only [ho, hs, hh, NewFile, Except.ok.injEq] at hu
        exact ⟨content, fi, hd, rfl, rfl, hh, hu.symm⟩

theorem addFiles_shift (h : Host) (files : List File) (tarables : List Tarable) :
    addFiles h files tarables = (addFiles h files []).map (fun us => tarables ++ us) := by
  induction files generalizing tarables with
  | nil => simp [addFiles, Except.map]
  | cons f fs ih =>
    cases hu : newFileUnit h f with
    | error e => simp [addFiles, hu, Except.map]
    | ok u =>
      simp only [addFiles, hu]
      rw [ih (tarables ++ [u]), ih ([] ++ [u])]
      cases addFiles h fs [] <;> simp [Except.map]

/-! ## The unit list -/

/-- C1: for every danger setting and all lists of pods, file specs (each of which is
opened, stat'd and given its header, so that the loop builds the units `fileUnits`, the
i-th from the i-th spec), command specs and journals, the value of `tarables` after the
five loops is the danger-mode pod-log units, then the file units, the command units, the
journal units and the raw pod records, each segment in the order of its source list; and
in every run of `main` that starts with these inputs and creates its output file, this
is the list handed to the orchestrator. -/
theorem units_in_source_order (danger : Bool) (pods : List Pod) (files : List File)
    (commands : List Command) (journals : List Journal) (h : Host)
    (fileUnits : List Tarable)
    (hf : List.Forall₂ (fun f u => newFileUnit h f = Except.ok u) files fileUnits) :
    buildTarables danger pods files commands journals h
        = Except.ok (orderedUnits danger pods fileUnits commands journals)
      ∧ orderedUnits danger pods fileUnits commands journals
        = (if danger then
            (pods.filter (fun p => decide (p.State = PodState.RUNNING))).map podLogUnit
           else [])
          ++ fileUnits ++ commands.map (fun c => NewCommand c.Args c.Link)
          ++ journals.map Tarable.journal ++ pods.map Tarable.pod
      ∧ ∀ (w : World) (out : Handle), Starts w files commands journals →
          w.dangerFlag.getD false = danger → w.getPods.1 = pods → w.host = h →
          w.osCreate (outputFile w) = Except.ok out →
          handedUnits (main w).1
            = some (orderedUnits danger pods fileUnits commands journals) := by
  have hb := buildTarables_ok danger pods files commands journals h fileUnits hf
  refine ⟨hb, rfl, ?_⟩
  intro w out hs hd hp hh hc
  subst hd hp hh
  exact main_handed w files commands journals _ out hs hb hc

theorem units_in_source_order_witness :
    buildTarables true [⟨"p1", PodState.RUNNING⟩, ⟨"p2", PodState.EXITED⟩]
        [⟨"/etc/hostname", ""⟩] [⟨["echo", "hi"], ""⟩] [⟨0⟩] sampleHost
      = Except.ok [podLogUnit ⟨"p1", PodState.RUNNING⟩, sampleFileUnit,
          NewCommand ["echo", "hi"] "", Tarable.journal ⟨0⟩,
          Tarable.pod ⟨"p1", PodState.RUNNING⟩, Tarable.pod ⟨"p2", PodState.EXITED⟩]
      ∧ handedUnits (main sampleWorld).1
        = some [podLogUnit ⟨"p1", PodState.RUNNING⟩, sampleFileUnit,
          NewCommand ["echo", "hi"] "", Tarable.journal ⟨0⟩,
          Tarable.pod ⟨"p1", PodState.RUNNING⟩, Tarable.pod ⟨"p2", PodState.EXITED⟩] :=
  have hw := units_in_source_order true [⟨"p1", PodState.RUNNING⟩, ⟨"p2", PodState.EXITED⟩]
    [⟨"/etc/hostname", ""⟩] [⟨["echo", "hi"], ""⟩] [⟨0⟩] sampleHost [sampleFileUnit]
    (List.Forall₂.cons rfl List.Forall₂.nil)
  ⟨hw.1, hw.2.2 sampleWorld ⟨4⟩ ⟨"conf", sampleConfig, rfl, rfl, rfl, rfl, rfl⟩
    rfl rfl rfl rfl⟩

/-- C2: for every list of pods, with danger mode off the danger-mode loop of `main` adds
nothing to `tarables`, whatever the pods' states; with danger mode on it adds exactly one
pod-log unit for each pod whose state is RUNNING, in pod order, and none for a pod in
another state.  The finished unit list differs between the two settings by exactly these
units, at its front. -/
theorem pod_logs_only_for_running_in_danger (pods : List Pod) (tarables : List Tarable) :
    addPodLogs false pods tarables = tarables
      ∧ addPodLogs true pods tarables
        = tarables
          ++ (pods.filter (fun p => decide (p.State = PodState.RUNNING))).map podLogUnit
      ∧ (∀ p ∈ pods, p.State ≠ PodState.RUNNING → addPodLogs true [p] tarables = tarables)
      ∧ ∀ (files : List File) (commands : List Command) (journals : List Journal) (h : Host),
          buildTarables true pods files commands journals h
            = (buildTarables false pods files commands journals h).map
                (fun rest =>
                  (pods.filter (fun p => decide (p.State = PodState.RUNNING))).map podLogUnit
                    ++ rest) := by
  refine ⟨?_, ?_, ?_, ?_⟩
  · simp [addPodLogs_eq, podLogSegment]
  · simp [addPodLogs_eq, podLogSegment]
  · intro p _ hp
    simp [addPodLogs_eq, podLogSegment, hp]
  · intro files commands journals h
    simp only [buildTarables, addPodLogs_eq, podLogSegment]
    rw [addFiles_shift]
    cases ha : addFiles h files [] <;>
      simp [Except.map, addCommands_eq, addJournals_eq, addPods_eq, ha]

/-- C7: for every pod id, the pod-log unit `main` builds is the command unit with argv
`["journalctl", "-M", "rkt-" ++ id]` and archive path `"/rkt/" ++ id ++ ".log"`, and it is
what the danger-mode loop appends for a RUNNING pod with that id. -/
theorem pod_log_unit_shape (id : String) (st : PodState) (tarables : List Tarable) :
    podLogUnit ⟨id, st⟩
        = Tarable.command ["journalctl", "-M", "rkt-" ++ id] ("/rkt/" ++ id ++ ".log")
      ∧ archiveName (podLogUnit ⟨id, st⟩) = some ("/rkt/" ++ id ++ ".log")
      ∧ addPodLogs true [⟨id, PodState.RUNNING⟩] tarables
        = tarables
          ++ [Tarable.command ["journalctl", "-M", "rkt-" ++ id] ("/rkt/" ++ id ++ ".log")] := by
  refine ⟨rfl, rfl, ?_⟩
  simp [addPodLogs_eq, podLogSegment, podLogUnit, NewCommand]

/-- C3, as stated, fails: in danger mode with one RUNNING pod and nothing else
(N = M = J = 0, P = 1) the unit list has two entries, not one. -/
theorem danger_mode_adds_entries :
    buildTarables true [⟨"p1", PodState.RUNNING⟩] [] [] [] sampleHost
        = Except.ok [podLogUnit ⟨"p1", PodState.RUNNING⟩, Tarable.pod ⟨"p1", PodState.RUNNING⟩]
      ∧ [podLogUnit ⟨"p1", PodState.RUNNING⟩, Tarable.pod ⟨"p1", PodState.RUNNING⟩].length
        ≠ 0 + 0 + 0 + 1 :=
  ⟨rfl, by decide⟩

/-- C3, amended: with N file specs (each of which is opened, stat'd and given its
header), M command specs, J journals and P pods, the unit list `main` hands to the
orchestrator has exactly N+M+J+P entries when danger mode is off, and N+M+J+P plus the
number of RUNNING pods when it is on; for the configuration with the one file
`/etc/hostname` and the one command `echo hi`, no journals, no pods and danger off, it has
exactly 2 entries, the file unit and the command unit. -/
theorem unit_count (danger : Bool) (pods : List Pod) (files : List File)
    (commands : List Command) (journals : List Journal) (h : Host)
    (fileUnits : List Tarable)
    (hf : List.Forall₂ (fun f u => newFileUnit h f = Except.ok u) files fileUnits) :
    (∃ ts, buildTarables danger pods files commands journals h = Except.ok ts
        ∧ ts.length = files.length + commands.length + journals.length + pods.length
            + (if danger then
                (pods.filter (fun p => decide (p.State = PodState.RUNNING))).length
               else 0)
        ∧ (danger = false →
            ts.length = files.length + commands.length + journals.length + pods.length)
        ∧ ∀ (w : World) (out : Handle), Starts w files commands journals →
            w.dangerFlag.getD false = danger → w.getPods.1 = pods → w.host = h →
            w.osCreate (outputFile w) = Except.ok out →
            handedUnits (main w).1 = some ts)
      ∧ ∀ (h2 : Host) (u : Tarable), newFileUnit h2 ⟨"/etc/hostname", ""⟩ = Except.ok u →
          buildTarables false [] [⟨"/etc/hostname", ""⟩] [⟨["echo", "hi"], ""⟩] [] h2
              = Except.ok [u, NewCommand ["echo", "hi"] ""]
            ∧ [u, NewCommand ["echo", "hi"] ""].length = 2 := by
  have hb := buildTarables_ok danger pods files commands journals h fileUnits hf
  have hlen := hf.length_eq
  refine ⟨⟨_, hb, ?_, ?_, ?_⟩, ?_⟩
  · cases danger <;> simp [podLogSegment, hlen] <;> omega
  · intro hd
    subst hd
    simp [podLogSegment, hlen]
    omega
  · intro w out hs hd hp hh hc
    subst hd hp hh
    exact main_handed w files commands journals _ out hs hb hc
  · intro h2 u hu
    refine ⟨?_, rfl⟩
    rw [buildTarables_ok false [] [⟨"/etc/hostname", ""⟩] [⟨["echo", "hi"], ""⟩] [] h2 [u]
      (List.Forall₂.cons hu List.Forall₂.nil)]
    simp [podLogSegment]

theorem unit_count_witness :
    (∃ ts, buildTarables false [] [⟨"/etc/hostname", ""⟩] [⟨["echo", "hi"], ""⟩] [] sampleHost
        = Except.ok ts ∧ ts.length = 2)
      ∧ buildTarables false [] [⟨"/etc/hostname", ""⟩] [⟨["echo", "hi"], ""⟩] [] sampleHost
        = Except.ok [sampleFileUnit, NewCommand ["echo", "hi"] ""] :=
  have hw := unit_count false [] [⟨"/etc/hostname", ""⟩] [⟨["echo", "hi"], ""⟩] [] sampleHost
    [sampleFileUnit] (List.Forall₂.cons rfl List.Forall₂.nil)
  ⟨hw.1.elim fun ts hts => ⟨ts, hts.1, hts.2.1⟩, (hw.2 sampleHost sampleFileUnit rfl).1⟩

/-! ## File units -/

/-- C6: whenever `main` builds a file unit for a file spec, the file was opened and
stat'd and the unit is `NewFile` of the open file, the header of the stat result with its
`Name` set to the spec's name, the spec's name and the spec's link: the tar header's name
and the unit's name are the spec's name, the link target is the spec's link, so the unit
is a symlink entry when the link is non-empty and a content entry when it is empty.  And
a file spec that opens, stats and gets its header does have this unit built. -/
theorem file_unit_fields (h : Host) (f : File) :
    (∀ u, newFileUnit h f = Except.ok u →
        ∃ content fi hd, h.osOpen f.Name = Except.ok content
          ∧ h.osStat f.Name = Except.ok fi
          ∧ h.fileInfoHeader fi f.Name = Except.ok hd
          ∧ u = NewFile content { hd with Name := f.Name } f.Name f.Link
          ∧ ({ hd with Name := f.Name } : Header).Name = f.Name
          ∧ archiveName u = some f.Name
          ∧ linkTarget u = some f.Link
          ∧ (f.Link ≠ "" → unitKind u = some EntryKind.symlink)
          ∧ (f.Link = "" → unitKind u = some EntryKind.content))
      ∧ ∀ content fi hd, h.osOpen f.Name = Except.ok content →
          h.osStat f.Name = Except.ok fi → h.fileInfoHeader fi f.Name = Except.ok hd →
          newFileUnit h f
            = Except.ok (NewFile content { hd with Name := f.Name } f.Name f.Link) := by
  constructor
  · intro u hu
    obtain ⟨content, fi, hd, ho, hs, hh, rfl⟩ := newFileUnit_ok_inv h f u hu
    refine ⟨content, fi, hd, ho, hs, hh, rfl, rfl, rfl, rfl, ?_, ?_⟩
    · intro hl
      simp [unitKind, linkTarget, entryKind, hl]
    · intro hl
      simp [unitKind, linkTarget, entryKind, hl]
  · intro content fi hd ho hs hh
    simp [newFileUnit, ho, hs, hh]

theorem file_unit_fields_witness :
    newFileUnit sampleHost ⟨"/etc/hostname", "/etc/hosts"⟩
        = Except.ok (NewFile ⟨3⟩ ⟨"/etc/hostname", "", 7, 420, 0⟩ "/etc/hostname" "/etc/hosts")
      ∧ unitKind (NewFile ⟨3⟩ ⟨"/etc/hostname", "", 7, 420, 0⟩ "/etc/hostname" "/etc/hosts")
        = some EntryKind.symlink
      ∧ unitKind sampleFileUnit = some EntryKind.content :=
  ⟨(file_unit_fields sampleHost ⟨"/etc/hostname", "/etc/hosts"⟩).2
      ⟨3⟩ ⟨"hostname", 7, 420, 0⟩ ⟨"hostname", "", 7, 420, 0⟩ rfl rfl rfl,
    by decide, by decide⟩

/-! ## Archive names -/

theorem podLog_name_ne_empty (id : String) : "/rkt/" ++ id ++ ".log" ≠ "" := by
  intro h
  have hl := congrArg String.length h
  simp only [String.length_append] at hl
  have h5 : "/rkt/".length = 5 := by decide
  have h0 : "".length = 0 := by decide
  omega

theorem forall2_exists_left {α β : Type} (R : α → β → Prop) (xs : List α) (ys : List β)
    (h : List.Forall₂ R xs ys) : ∀ y ∈ ys, ∃ x ∈ xs, R x y := by
  induction h with
  | nil => intro y hy; simp at hy
  | cons hxy _ ih =>
    intro y hy
    rcases List.mem_cons.mp hy with rfl | hy
    · exact ⟨_, List.mem_cons_self _ _, hxy⟩
    · obtain ⟨x, hx, hr⟩ := ih y hy
      exact ⟨x, List.mem_cons_of_mem _ hx, hr⟩

theorem forall2_exists_right {α β : Type} (R : α → β → Prop) (xs : List α) (ys : List β)
    (h : List.Forall₂ R xs ys) : ∀ x ∈ xs, ∃ y ∈ ys, R x y := by
  induction h with
  | nil => intro x hx; simp at hx
  | cons hxy _ ih =>
    intro x hx
    rcases List.mem_cons.mp hx with rfl | hx
    · exact ⟨_, List.mem_cons_self _ _, hxy⟩
    · obtain ⟨y, hy, hr⟩ := ih x hx
      exact ⟨y, List.mem_cons_of_mem _ hy, hr⟩

theorem startTrace_only_logs (w : World) :
    ∀ ev ∈ startTrace w, ev.isCreate = false ∧ ev.isRun = false ∧ ev.isReport = false := by
  intro ev hev
  simp only [startTrace, List.mem_append, List.mem_singleton] at hev
  rcases hev with (rfl | hev) | hev
  · exact ⟨rfl, rfl, by simp [Event.isReport]⟩
  · cases hp : w.getPods.2 with
    | none => simp [hp, podWarning] at hev
    | some err =>
      simp only [hp, podWarning, List.mem_cons, List.mem_singleton, List.not_mem_nil,
        or_false] at hev
      rcases hev with rfl | rfl
      · exact ⟨rfl, rfl, by simp [Event.isReport]⟩
      · exact ⟨rfl, rfl, by simp [Event.isReport]⟩
  · cases hd : w.dangerFlag.getD false with
    | false => simp [hd, dangerNotice] at hev
    | true =>
      simp only [hd, dangerNotice, if_true, List.mem_singleton] at hev
      subst hev
      exact ⟨rfl, rfl, by simp [Event.isReport]⟩

theorem handedUnits_none_of_no_run (tr : List Event) (h : ∀ ev ∈ tr, ev.isRun = false) :
    handedUnits tr = none := by
  induction tr with
  | nil => rfl
  | cons ev evs ih =>
    have hev := h ev (List.mem_cons_self _ _)
    have ih2 := ih (fun e he => h e (List.mem_cons_of_mem _ he))
    cases ev <;> simp_all [handedUnits, Event.isRun]

/-- C9, as stated, fails: the command spec `echo hi` of the spec's own scenario has no
link, so the command unit `main` builds from it has the empty string as the second
argument of `NewCommand`. -/
theorem command_unit_empty_name :
    buildTarables false [] [] [⟨["echo", "hi"], ""⟩] [] sampleHost
        = Except.ok [NewCommand ["echo", "hi"] ""]
      ∧ archiveName (NewCommand ["echo", "hi"] "") = some "" :=
  ⟨rfl, rfl⟩

/-- C9, amended: on a host where the empty path cannot be opened, every file unit and
every danger-mode pod-log unit `main` constructs has a non-empty archiveName, for every
configuration and every list of pods; a command unit built from a command spec has the
spec's link as its archiveName (the second argument of `NewCommand`), so the only units of
the list with an empty archiveName are command units whose spec has an empty link. -/
theorem built_units_named (danger : Bool) (pods : List Pod) (files : List File)
    (commands : List Command) (journals : List Journal) (h : Host) (ts : List Tarable)
    (hb : buildTarables danger pods files commands journals h = Except.ok ts)
    (hempty : ∀ content, h.osOpen "" ≠ Except.ok content) :
    (∀ u ∈ ts, archiveName u = some "" →
        ∃ c ∈ commands, c.Link = "" ∧ u = NewCommand c.Args c.Link)
      ∧ (∀ u ∈ podLogSegment danger pods, u ∈ ts ∧ ∃ n, archiveName u = some n ∧ n ≠ "")
      ∧ (∀ f ∈ files, ∃ u ∈ ts, newFileUnit h f = Except.ok u
          ∧ archiveName u = some f.Name ∧ f.Name ≠ "")
      ∧ ∀ c ∈ commands, NewCommand c.Args c.Link ∈ ts
          ∧ archiveName (NewCommand c.Args c.Link) = some c.Link := by
  obtain ⟨fus, hfus, rfl⟩ := buildTarables_ok_inv danger pods files commands journals h ts hb
  have hpod : ∀ u ∈ podLogSegment danger pods, ∃ n, archiveName u = some n ∧ n ≠ "" := by
    intro u hu
    cases danger with
    | false => simp [podLogSegment] at hu
    | true =>
      simp only [podLogSegment, if_true, List.mem_map] at hu
      obtain ⟨p, _, rfl⟩ := hu
      exact ⟨_, rfl, podLog_name_ne_empty p.Id⟩
  have hfile : ∀ f u, newFileUnit h f = Except.ok u →
      archiveName u = some f.Name ∧ f.Name ≠ "" := by
    intro f u hu
    obtain ⟨content, fi, hd, ho, _, _, rfl⟩ := newFileUnit_ok_inv h f u hu
    refine ⟨rfl, ?_⟩
    intro hn
    rw [hn] at ho
    exact hempty content ho
  have hfus2 := forall2_exists_left _ files fus hfus
  have hfus3 := forall2_exists_right _ files fus hfus
  refine ⟨?_, ?_, ?_, ?_⟩
  · intro u hu hname
    simp only [List.mem_append, List.mem_map] at hu
    rcases hu with (((hu | hu) | hu) | hu) | hu
    · obtain ⟨n, hn, hne⟩ := hpod u hu
      rw [hn] at hname
      exact absurd (Option.some.inj hname) hne
    · obtain ⟨f, _, hfu⟩ := hfus2 u hu
      obtain ⟨hn, hne⟩ := hfile f u hfu
      rw [hn] at hname
      exact absurd (Option.some.inj hname) hne
    · obtain ⟨c, hc, rfl⟩ := hu
      refine ⟨c, hc, ?_, rfl⟩
      simpa [archiveName, NewCommand] using hname
    · obtain ⟨j, _, rfl⟩ := hu
      simp [archiveName] at hname
    · obtain ⟨p, _, rfl⟩ := hu
      simp [archiveName] at hname
  · intro u hu
    exact ⟨by simp [hu], hpod u hu⟩
  · intro f hf
    obtain ⟨u, hu, hfu⟩ := hfus3 f hf
    exact ⟨u, by simp [hu], hfu, hfile f u hfu⟩
  · intro c hc
    refine ⟨?_, rfl⟩
    simp only [List.mem_append, List.mem_map]
    exact Or.inl (Or.inl (Or.inr ⟨c, hc, rfl⟩))

theorem built_units_named_witness :
    (∀ u ∈ [podLogUnit ⟨"p1", PodState.RUNNING⟩, sampleFileUnit,
          NewCommand ["echo", "hi"] "/echo", Tarable.journal ⟨0⟩,
          Tarable.pod ⟨"p1", PodState.RUNNING⟩],
        archiveName u = some "" →
          ∃ c ∈ [(⟨["echo", "hi"], "/echo"⟩ : Command)],
            c.Link = "" ∧ u = NewCommand c.Args c.Link)
      ∧ ∃ n, archiveName (podLogUnit ⟨"p1", PodState.RUNNING⟩) = some n ∧ n ≠ "" :=
  have hw := built_units_named true [⟨"p1", PodState.RUNNING⟩] [⟨"/etc/hostname", ""⟩]
    [⟨["echo", "hi"], "/echo"⟩] [⟨0⟩] sampleHost
    [podLogUnit ⟨"p1", PodState.RUNNING⟩, sampleFileUnit,
      NewCommand ["echo", "hi"] "/echo", Tarable.journal ⟨0⟩,
      Tarable.pod ⟨"p1", PodState.RUNNING⟩]
    rfl (by intro content hc; simp [sampleHost] at hc)
  ⟨hw.1, (hw.2.1 (podLogUnit ⟨"p1", PodState.RUNNING⟩) (by simp [podLogSegment])).2⟩

/-! ## Failures while building the list -/

theorem main_halted (w : World) (files : List File) (commands : List Command)
    (journals : List Journal) (ts : List Tarable) (out : Handle) (e : String)
    (hs : Starts w files commands journals)
    (hb : buildTarables (w.dangerFlag.getD false) w.getPods.1 files commands journals w.host
      = Except.ok ts)
    (hc : w.osCreate (outputFile w) = Except.ok out) (ho : w.orchestrate ts = some e) :
    main w = (startTrace w ++ [Event.create (outputFile w), Event.tarInit, Event.run ts],
      Exit.fatal e) := by
  obtain ⟨conf, cfg, hr, hu, rfl, rfl, hj⟩ := hs
  simp [main, openConfig, readConfig, hr, hu, hj, hb, hc, ho, startTrace]

theorem newFileUnit_fatal (h : Host) (f : File)
    (hfail : (∃ e, h.osOpen f.Name = Except.error e) ∨ (∃ e, h.osStat f.Name = Except.error e)) :
    ∃ e, newFileUnit h f = Except.error (Exit.fatal e) := by
  unfold newFileUnit
  cases ho : h.osOpen f.Name with
  | error e => exact ⟨e, rfl⟩
  | ok content =>
    rcases hfail with ⟨e, he⟩ | ⟨e, he⟩
    · rw [ho] at he; cases he
    · exact ⟨e, by simp [he]⟩

theorem addFiles_error_ne_done (h : Host) (files : List File) (tarables : List Tarable)
    (e : Exit) (ha : addFiles h files tarables = Except.error e) : e ≠ Exit.done := by
  induction files generalizing tarables with
  | nil => simp [addFiles] at ha
  | cons f fs ih =>
    cases hu : newFileUnit h f with
    | error e2 =>
      simp only [addFiles, hu, Except.error.injEq] at ha
      subst ha
      unfold newFileUnit at hu
      cases ho : h.osOpen f.Name with
      | error e3 => simp [ho] at hu; simp [← hu]
      | ok content =>
        cases hs : h.osStat f.Name with
        | error e3 => simp [ho, hs] at hu; simp [← hu]
        | ok fi =>
          cases hh : h.fileInfoHeader fi f.Name with
          | error e3 => simp [ho, hs, hh] at hu; simp [← hu]
          | ok hd => simp [ho, hs, hh] at hu
    | ok u =>
      simp only [addFiles, hu] at ha
      exact ih _ ha

/-- C5: in every run whose configuration is read and decoded, if some configured file
spec cannot be opened or cannot be stat'd then `main` does not finish: the output archive
file is never created, the orchestrator is never run and no output path is reported,
whatever the other file specs, the commands, the journals and the pods are; and when the
specs before that file are all turned into units, the run ends with `log.Fatal` at that
file, after the start-up log lines only. -/
theorem unreadable_file_aborts (w : World) (conf : String) (cfg : Config) (f : File)
    (hr : w.readFile (configFilePath w.configVar (w.configFileFlag.getD "/etc/mayday.conf"))
      = Except.ok conf)
    (hu : w.unmarshal conf = Except.ok cfg) (hmem : f ∈ cfg.Files)
    (hfail : (∃ e, w.host.osOpen f.Name = Except.error e)
      ∨ (∃ e, w.host.osStat f.Name = Except.error e)) :
    (main w).2 ≠ Exit.done
      ∧ (∀ ev ∈ (main w).1, ev.isCreate = false ∧ ev.isRun = false ∧ ev.isReport = false)
      ∧ handedUnits (main w).1 = none
      ∧ ∀ (journals : List Journal) (pre post : List File) (preUnits : List Tarable),
          w.listJournals = Except.ok journals → cfg.Files = pre ++ f :: post →
          List.Forall₂ (fun g u => newFileUnit w.host g = Except.ok u) pre preUnits →
          ∃ e, newFileUnit w.host f = Except.error (Exit.fatal e)
            ∧ main w = (startTrace w, Exit.fatal e) := by
  have hfatal := newFileUnit_fatal w.host f hfail
  have hcore : (main w).2 ≠ Exit.done
      ∧ (∀ ev ∈ (main w).1, ev.isCreate = false ∧ ev.isRun = false ∧ ev.isReport = false) := by
    cases hj : w.listJournals with
    | error e =>
      have hm : main w = ([Event.log "Reading configuration from %v\n"
          [configFilePath w.configVar (w.configFileFlag.getD "/etc/mayday.conf")]],
          Exit.fatal e) := by
        simp [main, openConfig, readConfig, hr, hu, hj]
      rw [hm]
      refine ⟨by simp, ?_⟩
      intro ev hev
      simp only [List.mem_singleton] at hev
      subst hev
      exact ⟨rfl, rfl, by simp [Event.isReport]⟩
    | ok journals =>
      have hs : Starts w cfg.Files cfg.Commands journals := ⟨conf, cfg, hr, hu, rfl, rfl, hj⟩
      obtain ⟨e, he⟩ := addFiles_error_of_mem w.host cfg.Files f
        (addPodLogs (w.dangerFlag.getD false) w.getPods.1 []) hmem
        (hfatal.elim fun e he => ⟨_, he⟩)
      have hb : buildTarables (w.dangerFlag.getD false) w.getPods.1 cfg.Files cfg.Commands
          journals w.host = Except.error e := by
        simp [buildTarables, he]
      rw [main_abort w _ _ _ e hs hb]
      exact ⟨addFiles_error_ne_done _ _ _ e he, startTrace_only_logs w⟩
  refine ⟨hcore.1, hcore.2, ?_, ?_⟩
  · exact handedUnits_none_of_no_run _ (fun ev hev => (hcore.2 ev hev).2.1)
  · intro journals pre post preUnits hj hsplit hpre
    obtain ⟨e, he⟩ := hfatal
    refine ⟨e, he, ?_⟩
    have hs : Starts w cfg.Files cfg.Commands journals := ⟨conf, cfg, hr, hu, rfl, rfl, hj⟩
    apply main_abort w _ _ _ _ hs
    simp [buildTarables, hsplit, addFiles_error_at w.host pre post f preUnits _ _ hpre he]

theorem unreadable_file_aborts_witness :
    (main brokenWorld).2 ≠ Exit.done
      ∧ handedUnits (main brokenWorld).1 = none
      ∧ main brokenWorld = (startTrace brokenWorld, Exit.fatal "open: no such file or directory") :=
  have hw := unreadable_file_aborts brokenWorld "conf"
    ⟨[⟨"/etc/hostname", ""⟩, ⟨"/var/missing", ""⟩], [⟨["echo", "hi"], ""⟩]⟩
    ⟨"/var/missing", ""⟩ rfl rfl (by decide) (Or.inl ⟨_, rfl⟩)
  ⟨hw.1, hw.2.2.1, by decide⟩

/-- C8: when pod discovery returns an error, `main` does not abort.  In every run that
starts, whose file specs are all turned into units and whose output file is created,
for either danger setting, the warning is logged and the list handed to the orchestrator
is the file units, the command units and the journal units: it has no danger-mode
pod-log segment and no raw pod record; and when the orchestrator returns, the run ends
normally. -/
theorem unreachable_runtime_is_not_fatal (w : World) (err : String) (files : List File)
    (commands : List Command) (journals : List Journal) (fileUnits : List Tarable)
    (out : Handle)
    (hp : w.getPods = GetPods (Runtime.unreachable err))
    (hs : Starts w files commands journals)
    (hf : List.Forall₂ (fun f u => newFileUnit w.host f = Except.ok u) files fileUnits)
    (hc : w.osCreate (outputFile w) = Except.ok out) :
    handedUnits (main w).1
        = some (fileUnits ++ commands.map (fun c => NewCommand c.Args c.Link)
            ++ journals.map Tarable.journal)
      ∧ podLogSegment (w.dangerFlag.getD false) w.getPods.1 = []
      ∧ w.getPods.1.map Tarable.pod = []
      ∧ (∀ p, Tarable.pod p ∉ fileUnits ++ commands.map (fun c => NewCommand c.Args c.Link)
            ++ journals.map Tarable.journal)
      ∧ Event.log "Connection error: %s" [err] ∈ (main w).1
      ∧ (w.orchestrate (fileUnits ++ commands.map (fun c => NewCommand c.Args c.Link)
            ++ journals.map Tarable.journal) = none → (main w).2 = Exit.done) := by
  have hp1 : w.getPods.1 = [] := by rw [hp]; rfl
  have hp2 : w.getPods.2 = some err := by rw [hp]; rfl
  have hseg : podLogSegment (w.dangerFlag.getD false) w.getPods.1 = [] := by
    rw [hp1]; cases w.dangerFlag.getD false <;> simp [podLogSegment]
  have hb : buildTarables (w.dangerFlag.getD false) w.getPods.1 files commands journals w.host
      = Except.ok (fileUnits ++ commands.map (fun c => NewCommand c.Args c.Link)
          ++ journals.map Tarable.journal) := by
    rw [buildTarables_ok _ _ files commands journals w.host fileUnits hf, hseg, hp1]
    simp
  have hwarn : Event.log "Connection error: %s" [err] ∈ startTrace w := by
    simp [startTrace, hp2, podWarning]
  refine ⟨main_handed w files commands journals _ out hs hb hc, hseg, by simp [hp1], ?_, ?_, ?_⟩
  · intro p hmem
    simp only [List.mem_append, List.mem_map] at hmem
    rcases hmem with (hmem | ⟨c, _, hc2⟩) | ⟨j, _, hj⟩
    · obtain ⟨g, _, hg⟩ := forall2_exists_left _ files fileUnits hf _ hmem
      obtain ⟨content, fi, hd, _, _, _, hu⟩ := newFileUnit_ok_inv w.host g _ hg
      cases hu
    · cases hc2
    · cases hj
  · cases ho : w.orchestrate (fileUnits ++ commands.map (fun c => NewCommand c.Args c.Link)
        ++ journals.map Tarable.journal) with
    | none =>
      rw [main_done w files commands journals _ out hs hb hc ho]
      simp [hwarn]
    | some e2 =>
      rw [main_halted w files commands journals _ out e2 hs hb hc ho]
      simp [hwarn]
  · intro ho
    rw [main_done w files commands journals _ out hs hb hc ho]

theorem unreachable_runtime_is_not_fatal_witness :
    handedUnits (main offlineWorld).1
        = some [sampleFileUnit, NewCommand ["echo", "hi"] "", Tarable.journal ⟨0⟩]
      ∧ (main offlineWorld).2 = Exit.done :=
  have hw := unreachable_runtime_is_not_fatal offlineWorld "connection refused"
    [⟨"/etc/hostname", ""⟩] [⟨["echo", "hi"], ""⟩] [⟨0⟩] [sampleFileUnit] ⟨4⟩ rfl
    ⟨"conf", sampleConfig, rfl, rfl, rfl, rfl, rfl⟩
    (List.Forall₂.cons rfl List.Forall₂.nil) rfl
  ⟨hw.1, hw.2.2.2.2.2 rfl⟩

end Mayday
